import Mathlib

/-!
Verification of the OCR medicine-matching core of the Mero-Ausadi backend
(`backend/services/ocr_service.py`), shallowly embedded in Lean 4.

Python strings are embedded as `List Char` (`PyStr`).  The regular-expression
and string operations used by the source (`re.sub`, `re.search` with the two
fixed patterns, `str.strip`, `str.lower`, `str.split`, `in`-containment,
`str.isupper`) are translated into executable Lean functions over `PyStr`,
specialised to the exact patterns appearing in the source.  The catalog
(`MedicineService` backed by an external SQLAlchemy session) and the
third-party fuzzy string library (`fuzzywuzzy`) are external collaborators:
they are injected as parameters, and their calls are given `Except Unit`
result types where the Python code could observe an exception from them.
All inputs are taken to be ASCII, where Python's `\w`, `\s`, `lower`,
`isupper` agree with the ASCII-level definitions below.
-/

abbrev PyStr := List Char

/-- Python `\s` (ASCII): space, tab, newline, carriage return, vertical tab,
form feed. -/
def pyIsSpace (c : Char) : Bool :=
  c = ' ' || c = '\t' || c = '\n' || c = '\r' || c = '\x0b' || c = '\x0c'

/-- Python `\w` (ASCII): letters, digits and underscore. -/
def pyIsWordChar (c : Char) : Bool :=
  c.isAlphanum || c = '_'

/-- Python `str.lower` on one ASCII character. -/
def pyLowerChar (c : Char) : Char :=
  if 'A' ≤ c && c ≤ 'Z' then Char.ofNat (c.toNat + 32) else c

/-- Python `str.lower` (ASCII). -/
def pyLower (s : PyStr) : PyStr := s.map pyLowerChar

/-- Python `str.strip` with no argument: drop leading and trailing
whitespace. -/
def pyStrip (s : PyStr) : PyStr :=
  ((s.dropWhile pyIsSpace).reverse.dropWhile pyIsSpace).reverse

/-- `re.sub(r'\s+', ' ', s)`: replace every maximal whitespace run by a
single space.  The boolean argument records whether the previous character
was part of a whitespace run. -/
def collapseWsAux : Bool → PyStr → PyStr
  | _, [] => []
  | prevSpace, c :: cs =>
    if pyIsSpace c then
      if prevSpace then collapseWsAux true cs
      else ' ' :: collapseWsAux true cs
    else c :: collapseWsAux false cs

def collapseWs (s : PyStr) : PyStr := collapseWsAux false s

/-- The character class kept by `re.sub(r'[^\w\s\-\.\,\:\;\(\)\[\]\{\}]', '', s)`:
word characters, whitespace and the fixed punctuation set. -/
def keptChar (c : Char) : Bool :=
  pyIsWordChar c || pyIsSpace c ||
  c = '-' || c = '.' || c = ',' || c = ':' || c = ';' ||
  c = '(' || c = ')' || c = '[' || c = ']' || c = '\x7b' || c = '\x7d'

/-- The character allow-list exactly as the spec words it (§4.2): letters,
digits, spaces, and the fixed punctuation set hyphen, period, comma,
colon, semicolon, parentheses, brackets, braces.  Written from the spec's
words for comparison with the implementation's `keptChar`, which — through
Python's `\w` — additionally keeps the underscore. -/
def specAllowedChar (c : Char) : Bool :=
  c.isAlpha || c.isDigit || c = ' ' ||
  c = '-' || c = '.' || c = ',' || c = ':' || c = ';' ||
  c = '(' || c = ')' || c = '[' || c = ']' || c = '\x7b' || c = '\x7d'

/-- `OCRService.clean_extracted_text`: strip, collapse whitespace, delete
characters outside the allow-list, collapse again, strip again. -/
def clean_extracted_text (text : PyStr) : PyStr :=
  let t1 := collapseWs (pyStrip text)
  let t2 := t1.filter keptChar
  pyStrip (collapseWs t2)

/-- Python `needle in hay` prefix test helper. -/
def listIsPrefix : PyStr → PyStr → Bool
  | [], _ => true
  | _ :: _, [] => false
  | a :: as, b :: bs => a = b && listIsPrefix as bs

/-- Python `needle in hay`: contiguous-substring containment. -/
def listContains (hay needle : PyStr) : Bool :=
  match hay with
  | [] => listIsPrefix needle []
  | _ :: t => listIsPrefix needle hay || listContains t needle

/-- Python `s.split(sep)` for a single-character separator. -/
def pySplitOnChar (sep : Char) : PyStr → List PyStr
  | [] => [[]]
  | c :: cs =>
    match pySplitOnChar sep cs with
    | [] => [[c]]
    | h :: t => if c = sep then [] :: h :: t else (c :: h) :: t

/-- `s.split('\n')` as used by `extract_medicine_info`. -/
def pySplitLines (s : PyStr) : List PyStr := pySplitOnChar '\n' s

/-- Python `str.isupper` (ASCII): at least one cased character and no
lowercase character. -/
def pyIsUpper (s : PyStr) : Bool :=
  s.any Char.isAlpha && s.all (fun c => !c.isLower)

/-! ## Field extraction (`extract_medicine_info`, `extract_potential_names`) -/

/-- `re.search(r'\b\d{8,13}\b', line)`, specialised: the pattern can match
only a maximal digit run whose length is between 8 and 13 and whose
neighbours (when present) are non-word characters.  The scan walks the line
position by position carrying "previous character is a word character", as
the regex engine's `\b` test does; `.group()` is the digit run itself. -/
def findBarcodeAux : Bool → PyStr → Option PyStr
  | _, [] => none
  | prevW, c :: cs =>
    if c.isDigit && !prevW then
      let run := c :: cs.takeWhile Char.isDigit
      let rest := cs.dropWhile Char.isDigit
      if 8 ≤ run.length && run.length ≤ 13 &&
          (match rest with | [] => true | d :: _ => !pyIsWordChar d) then
        some run
      else findBarcodeAux (pyIsWordChar c) cs
    else findBarcodeAux (pyIsWordChar c) cs

def findBarcode (line : PyStr) : Option PyStr := findBarcodeAux false line

/-- The unit alternatives of the strength pattern, in the order the regex
alternation tries them: `mg|mcg|g|ml|IU` (matched case-insensitively). -/
def strengthUnits : List PyStr :=
  [['m','g'], ['m','c','g'], ['g'], ['m','l'], ['I','U']]

/-- Try to match one unit alternative (case-insensitively) at the head of
`rest`, requiring a word boundary after it; return the number of characters
consumed by the first alternative that succeeds. -/
def matchUnit (rest : PyStr) : Option Nat :=
  strengthUnits.findSome? fun u =>
    if listIsPrefix (pyLower u) (pyLower rest) &&
        (match rest.drop u.length with | [] => true | d :: _ => !pyIsWordChar d) then
      some u.length
    else none

/-- Attempt the body of `\d+(?:\.\d+)?\s*(?:mg|mcg|g|ml|IU)\b` at a position
whose first character is a digit; returns the matched substring verbatim.
The digit run and the optional fraction are matched greedily; the only
backtracking the regex can use here is dropping the fraction group. -/
def matchStrengthAt (s : PyStr) : Option PyStr :=
  let digits := s.takeWhile Char.isDigit
  let afterDigits := s.dropWhile Char.isDigit
  let withFrac : Option PyStr :=
    match afterDigits with
    | '.' :: d :: _ =>
      if d.isDigit then
        some (digits ++ '.' :: (afterDigits.drop 1).takeWhile Char.isDigit)
      else none
    | _ => none
  let tryFrom (numPart : PyStr) : Option PyStr :=
    let rest := s.drop numPart.length
    let ws := rest.takeWhile pyIsSpace
    let rest2 := rest.drop ws.length
    match matchUnit rest2 with
    | some n => some (numPart ++ ws ++ rest2.take n)
    | none => none
  match withFrac with
  | some nf =>
    match tryFrom nf with
    | some m => some m
    | none => tryFrom digits
  | none => tryFrom digits

/-- `re.search(r'\b\d+(?:\.\d+)?\s*(?:mg|mcg|g|ml|IU)\b', line, re.IGNORECASE)`,
scanning positions left to right; `\b` before `\d+` restricts starts to
digits not preceded by a word character. -/
def findStrengthAux : Bool → PyStr → Option PyStr
  | _, [] => none
  | prevW, c :: cs =>
    if c.isDigit && !prevW then
      match matchStrengthAt (c :: cs) with
      | some m => some m
      | none => findStrengthAux (pyIsWordChar c) cs
    else findStrengthAux (pyIsWordChar c) cs

def findStrength (line : PyStr) : Option PyStr := findStrengthAux false line

/-- The `manufacturer_keywords` list of `extract_medicine_info`. -/
def manufacturerKeywords : List PyStr :=
  ["ltd".data, "inc".data, "corp".data, "pharma".data,
   "pharmaceuticals".data, "company".data]

/-- The dict built by `extract_medicine_info` (`confidence_score` is
initialised to 0.0 and never updated by the source). -/
structure MedicineInfo where
  brand_name : PyStr
  generic_name : PyStr
  strength : PyStr
  manufacturer : PyStr
  barcode : PyStr
  confidence_score : ℚ
deriving Repr, DecidableEq

def emptyMedicineInfo : MedicineInfo :=
  ⟨[], [], [], [], [], 0⟩

/-- The first loop of `extract_medicine_info`: per stripped nonempty line,
fill `barcode`, `strength` and `manufacturer` first-match-wins. -/
def extractInfoLoop : MedicineInfo → List PyStr → MedicineInfo
  | info, [] => info
  | info, line :: rest =>
    let l := pyStrip line
    if l = [] then extractInfoLoop info rest
    else
      let info :=
        match findBarcode l with
        | some b => if info.barcode = [] then { info with barcode := b } else info
        | none => info
      let info :=
        match findStrength l with
        | some st => if info.strength = [] then { info with strength := st } else info
        | none => info
      let info :=
        if manufacturerKeywords.any (fun k => listContains (pyLower l) k) &&
            info.manufacturer = [] then
          { info with manufacturer := l }
        else info
      extractInfoLoop info rest

/-- The `skip_word` list of `extract_potential_names`. -/
def nameSkipWords : List PyStr :=
  ["tablet".data, "capsule".data, "injection".data, "mg".data, "mcg".data, "ml".data]

structure NamePair where
  brand_name : PyStr
  generic_name : PyStr
deriving Repr, DecidableEq

/-- `OCRService.extract_potential_names`: first all-caps line of length
3..30 becomes the brand hint, first line of length 11..50 becomes the
generic hint; lines shorter than 3 characters or containing a dosage-form
token are skipped. -/
def extract_potential_names (names : NamePair) : List PyStr → NamePair
  | [] => names
  | line :: rest =>
    let l := pyStrip line
    if l = [] || l.length < 3 then extract_potential_names names rest
    else if nameSkipWords.any (fun w => listContains (pyLower l) w) then
      extract_potential_names names rest
    else if l.length ≤ 30 && pyIsUpper l then
      extract_potential_names
        (if names.brand_name = [] then { names with brand_name := l } else names) rest
    else if 10 < l.length && l.length ≤ 50 then
      extract_potential_names
        (if names.generic_name = [] then { names with generic_name := l } else names) rest
    else extract_potential_names names rest

/-- `OCRService.extract_medicine_info`: split on `'\n'`, run the two
line loops, then copy the name hints into the info dict (`potential_names`
is a non-empty dict in Python, hence always truthy). -/
def extract_medicine_info (text : PyStr) : MedicineInfo :=
  let lines := pySplitLines text
  let info := extractInfoLoop emptyMedicineInfo lines
  let names := extract_potential_names ⟨[], []⟩ lines
  { info with brand_name := names.brand_name, generic_name := names.generic_name }

/-! ## Match engine (`search_medicines_by_ocr_text`) and aggregation -/

/-- The fields of the `Medicine` ORM row that the OCR service reads. -/
structure Medicine where
  id : ℕ
  brand_name : PyStr
  generic_name : PyStr
  manufacturer : PyStr
  barcode : Option PyStr
deriving Repr, DecidableEq

inductive MatchType where
  | barcode | brand_name | generic_name | manufacturer | fuzzy
deriving Repr, DecidableEq

/-- One entry of the result list built by `search_medicines_by_ocr_text`. -/
structure OcrResult where
  medicine : Medicine
  confidence_score : ℚ
  matched_text : PyStr
  match_type : MatchType
deriving Repr, DecidableEq

/-- The catalog access used by the service (`MedicineService` over the
injected database session, an external collaborator).  Each call may raise,
which the embedding records as `Except.error ()`. -/
structure Catalog where
  get_medicine_by_barcode : PyStr → Except Unit (Option Medicine)
  search_medicines : PyStr → ℕ → Except Unit (List Medicine)
  get_medicines : ℕ → Except Unit (List Medicine)

/-- `OCRService.calculate_name_confidence`.  `ratio` embeds the external
`fuzz.ratio` (0–100); a raising `ratio` call is caught by the method's own
`except` clause, which returns 0.0. -/
def calculate_name_confidence (ratio : PyStr → PyStr → Except Unit ℕ)
    (extracted_name database_name : PyStr) : ℚ :=
  if extracted_name = [] ∨ database_name = [] then 0
  else if pyLower extracted_name = pyLower database_name then 1
  else if listContains (pyLower database_name) (pyLower extracted_name) ||
      listContains (pyLower extracted_name) (pyLower database_name) then
    9/10
  else
    match ratio (pyLower extracted_name) (pyLower database_name) with
    | .ok n => (n : ℚ) / 100
    | .error _ => 0

/-- `OCRService.get_best_match`: Python `max` over the three scored fields,
first maximum wins (later entries replace only on strictly greater score).
`pr` embeds the external `fuzz.partial_ratio`. -/
def get_best_match (pr : PyStr → PyStr → ℕ) (text : PyStr) (m : Medicine) : PyStr :=
  let b := pr (pyLower text) (pyLower m.brand_name)
  let g := pr (pyLower text) (pyLower m.generic_name)
  let mf := pr (pyLower text) (pyLower m.manufacturer)
  if g > b then (if mf > g then m.manufacturer else m.generic_name)
  else (if mf > b then m.manufacturer else m.brand_name)

/-- Strategy 1 of `search_medicines_by_ocr_text`: exact barcode lookup
(an exception from the catalog call propagates to the enclosing `try`). -/
def barcode_part (cat : Catalog) (info : MedicineInfo) :
    Except Unit (List OcrResult) :=
  if info.barcode ≠ [] then
    match cat.get_medicine_by_barcode info.barcode with
    | .error e => .error e
    | .ok (some m) => .ok [⟨m, 19/20, info.barcode, .barcode⟩]
    | .ok none => .ok []
  else .ok []

/-- The loop body shared by strategies 2 and 3: keep entries whose
name-confidence against `field` exceeds 0.7. -/
def name_matches (ratio : PyStr → PyStr → Except Unit ℕ) (hint : PyStr)
    (field : Medicine → PyStr) (tag : MatchType) (medicines : List Medicine) :
    List OcrResult :=
  medicines.filterMap fun m =>
    let confidence := calculate_name_confidence ratio hint (field m)
    if confidence > 7/10 then some ⟨m, confidence, field m, tag⟩ else none

/-- Strategy 2 of `search_medicines_by_ocr_text`: brand-name search. -/
def brand_part (cat : Catalog) (ratio : PyStr → PyStr → Except Unit ℕ)
    (info : MedicineInfo) (limit : ℕ) : Except Unit (List OcrResult) :=
  if info.brand_name ≠ [] then
    match cat.search_medicines info.brand_name limit with
    | .error e => .error e
    | .ok medicines =>
      .ok (name_matches ratio info.brand_name (·.brand_name) .brand_name medicines)
  else .ok []

/-- Strategy 3 of `search_medicines_by_ocr_text`: generic-name search. -/
def generic_part (cat : Catalog) (ratio : PyStr → PyStr → Except Unit ℕ)
    (info : MedicineInfo) (limit : ℕ) : Except Unit (List OcrResult) :=
  if info.generic_name ≠ [] then
    match cat.search_medicines info.generic_name limit with
    | .error e => .error e
    | .ok medicines =>
      .ok (name_matches ratio info.generic_name (·.generic_name) .generic_name medicines)
  else .ok []

/-- The loop body of strategy 4: threshold 0.8 and a 0.8 weight on the
emitted confidence. -/
def manufacturer_matches (ratio : PyStr → PyStr → Except Unit ℕ) (hint : PyStr)
    (medicines : List Medicine) : List OcrResult :=
  medicines.filterMap fun m =>
    let confidence := calculate_name_confidence ratio hint m.manufacturer
    if confidence > 4/5 then
      some ⟨m, confidence * (4/5), m.manufacturer, .manufacturer⟩
    else none

/-- Strategy 4 of `search_medicines_by_ocr_text`: manufacturer search. -/
def manufacturer_part (cat : Catalog) (ratio : PyStr → PyStr → Except Unit ℕ)
    (info : MedicineInfo) (limit : ℕ) : Except Unit (List OcrResult) :=
  if info.manufacturer ≠ [] then
    match cat.search_medicines info.manufacturer limit with
    | .error e => .error e
    | .ok medicines => .ok (manufacturer_matches ratio info.manufacturer medicines)
  else .ok []

/-- The loop body of strategy 5: best of the three partial-ratio scores
against the whole text, kept when above 70. -/
def fuzzy_matches (pr : PyStr → PyStr → ℕ) (text : PyStr)
    (medicines : List Medicine) : List OcrResult :=
  medicines.filterMap fun m =>
    let bs := pr (pyLower text) (pyLower m.brand_name)
    let gs := pr (pyLower text) (pyLower m.generic_name)
    let ms := pr (pyLower text) (pyLower m.manufacturer)
    let mx := max bs (max gs ms)
    if mx > 70 then
      some ⟨m, (mx : ℚ) / 100, get_best_match pr text m, .fuzzy⟩
    else none

/-- Strategy 5 of `search_medicines_by_ocr_text`: fuzzy search over the
first 100 catalog entries. -/
def fuzzy_part (cat : Catalog) (pr : PyStr → PyStr → ℕ) (text : PyStr) :
    Except Unit (List OcrResult) :=
  match cat.get_medicines 100 with
  | .error e => .error e
  | .ok all_medicines => .ok (fuzzy_matches pr text all_medicines)

/-- `OCRService.remove_duplicate_results`: keep the first-seen result per
`medicine.id` (the Python `seen_medicines` set is embedded as the list of
ids seen so far). -/
def removeDuplicateAux (seen : List ℕ) : List OcrResult → List OcrResult
  | [] => []
  | r :: rest =>
    if r.medicine.id ∈ seen then removeDuplicateAux seen rest
    else r :: removeDuplicateAux (r.medicine.id :: seen) rest

def remove_duplicate_results (results : List OcrResult) : List OcrResult :=
  removeDuplicateAux [] results

/-- Python `list.sort(key=lambda x: x['confidence_score'], reverse=True)`:
a stable descending sort on the confidence score.  The insertion places an
element before the first strictly smaller score, so equal scores keep their
original relative order, as Python's stable sort does. -/
def insertDesc (r : OcrResult) : List OcrResult → List OcrResult
  | [] => [r]
  | x :: xs =>
    if r.confidence_score ≥ x.confidence_score then r :: x :: xs
    else x :: insertDesc r xs

def sortByConfidenceDesc : List OcrResult → List OcrResult
  | [] => []
  | x :: xs => insertDesc x (sortByConfidenceDesc xs)

/-- The `try` body of `search_medicines_by_ocr_text`: run the five
strategies in order (an exception anywhere propagates), concatenate,
deduplicate, sort and truncate. -/
def search_body (cat : Catalog) (ratio : PyStr → PyStr → Except Unit ℕ)
    (pr : PyStr → PyStr → ℕ) (text : PyStr) (limit : ℕ) :
    Except Unit (List OcrResult) :=
  let info := extract_medicine_info text
  match barcode_part cat info with
  | .error e => .error e
  | .ok r1 =>
    match brand_part cat ratio info limit with
    | .error e => .error e
    | .ok r2 =>
      match generic_part cat ratio info limit with
      | .error e => .error e
      | .ok r3 =>
        match manufacturer_part cat ratio info limit with
        | .error e => .error e
        | .ok r4 =>
          match fuzzy_part cat pr text with
          | .error e => .error e
          | .ok r5 =>
            let results := r1 ++ r2 ++ r3 ++ r4 ++ r5
            let unique_results := remove_duplicate_results results
            .ok ((sortByConfidenceDesc unique_results).take limit)

/-- `OCRService.search_medicines_by_ocr_text`: the whole body is wrapped in
one `try`/`except` that converts any exception into an empty list. -/
def search_medicines_by_ocr_text (cat : Catalog) (ratio : PyStr → PyStr → Except Unit ℕ)
    (pr : PyStr → PyStr → ℕ) (text : PyStr) (limit : ℕ := 10) : List OcrResult :=
  match search_body cat ratio pr text limit with
  | .ok r => r
  | .error _ => []

/-! ## Scan entry points (`process_image_file`, `process_base64_image`)

The image decoder (`cv2.imdecode`), the preprocessor and the OCR engine
(`pytesseract`) are external collaborators injected as parameters; the
pixel-buffer type `Img` is abstract.  `cv2.imdecode` signals failure by
returning `None`, embedded as `Option.none`.  The Python functions return
`("", {})` from their `except` clause; the empty dict `{}` (a different
shape from the info dict) is embedded as `Option.none` in the second
component. -/

/-- `OCRService.extract_text_from_image`: preprocess, run the OCR engine,
clean the text (the injected collaborators are total here, so the
method's own `except` branch returning `""` is unreachable). -/
def extract_text_from_image {Img : Type} (preprocess : Img → Img)
    (ocr : Img → PyStr) (image : Img) : PyStr :=
  clean_extracted_text (ocr (preprocess image))

/-- The `try` body of `process_image_file`: decode failure raises
`ValueError("Could not decode image")`. -/
def process_image_file_body {Img : Type} (imdecode : List ℕ → Option Img)
    (preprocess : Img → Img) (ocr : Img → PyStr) (image_bytes : List ℕ) :
    Except Unit (PyStr × MedicineInfo) := do
  match imdecode image_bytes with
  | none => throw ()
  | some image =>
    let extracted_text := extract_text_from_image preprocess ocr image
    pure (extracted_text, extract_medicine_info extracted_text)

/-- `OCRService.process_image_file`: the surrounding `try`/`except`
converts every exception — including the decode `ValueError` raised by its
own body — into the degraded normal return `("", {})`. -/
def process_image_file {Img : Type} (imdecode : List ℕ → Option Img)
    (preprocess : Img → Img) (ocr : Img → PyStr) (image_bytes : List ℕ) :
    PyStr × Option MedicineInfo :=
  match process_image_file_body imdecode preprocess ocr image_bytes with
  | .ok (t, info) => (t, some info)
  | .error _ => ([], none)

/-- The `try` body of `process_base64_image`: strip a `data:image` prefix
(`split(',')[1]` raises `IndexError` when no comma is present), base64
decode (may raise), then decode-and-extract as in `process_image_file`. -/
def process_base64_image_body {Img : Type} (b64decode : PyStr → Except Unit (List ℕ))
    (imdecode : List ℕ → Option Img) (preprocess : Img → Img) (ocr : Img → PyStr)
    (base64_string : PyStr) : Except Unit (PyStr × MedicineInfo) := do
  let s ← if listIsPrefix "data:image".data base64_string then
      match (pySplitOnChar ',' base64_string).get? 1 with
      | some part => pure part
      | none => throw ()
    else pure base64_string
  let image_bytes ← b64decode s
  match imdecode image_bytes with
  | none => throw ()
  | some image =>
    let extracted_text := extract_text_from_image preprocess ocr image
    pure (extracted_text, extract_medicine_info extracted_text)

/-- `OCRService.process_base64_image`: same catch-all as
`process_image_file`. -/
def process_base64_image {Img : Type} (b64decode : PyStr → Except Unit (List ℕ))
    (imdecode : List ℕ → Option Img) (preprocess : Img → Img) (ocr : Img → PyStr)
    (base64_string : PyStr) : PyStr × Option MedicineInfo :=
  match process_base64_image_body b64decode imdecode preprocess ocr base64_string with
  | .ok (t, info) => (t, some info)
  | .error _ => ([], none)

/-! ## Concrete fixtures used by the counterexamples and witnesses -/

/-- A trivial total embedding of `fuzz.ratio` (used where the value of the
edit-distance path is irrelevant). -/
def ratioZero : PyStr → PyStr → Except Unit ℕ := fun _ _ => .ok 0

/-- An always-raising embedding of `fuzz.ratio`. -/
def ratioRaise : PyStr → PyStr → Except Unit ℕ := fun _ _ => .error ()

/-- A trivial total embedding of `fuzz.partial_ratio`. -/
def prZero : PyStr → PyStr → ℕ := fun _ _ => 0

/-- The catalog entry of the spec's end-to-end scenario. -/
def entryNapa : Medicine :=
  ⟨1, "Napa".data, "Paracetamol".data, "Beximco Pharma".data,
   some "8901234567".data⟩

/-- A one-entry catalog holding `entryNapa`; every lookup succeeds. -/
def catNapa : Catalog where
  get_medicine_by_barcode b :=
    .ok (if b = "8901234567".data then some entryNapa else none)
  search_medicines _ _ := .ok [entryNapa]
  get_medicines _ := .ok [entryNapa]

def scanTextNapa : PyStr := "NAPA 500MG TABLET BEXIMCO PHARMA 8901234567".data

/-- Two catalog entries whose brand names both contain "NAPA", listed by
the catalog with the larger id first. -/
def entryNapax : Medicine := ⟨2, "NAPAX".data, "Para".data, "Acme".data, none⟩

def entryNapay : Medicine := ⟨1, "NAPAY".data, "Para".data, "Acme".data, none⟩

def catTwoBrands : Catalog where
  get_medicine_by_barcode _ := .ok none
  search_medicines _ _ := .ok [entryNapax, entryNapay]
  get_medicines _ := .ok []

/-- An entry found by the brand strategy in the failing-catalog scenario. -/
def entryPanadol : Medicine :=
  ⟨3, "Panadol".data, "Paracetamol".data, "GSK".data, none⟩

/-- A catalog whose barcode lookup raises while name search succeeds. -/
def catBarcodeRaises : Catalog where
  get_medicine_by_barcode _ := .error ()
  search_medicines _ _ := .ok [entryPanadol]
  get_medicines _ := .ok []

/-- Two candidates for the same catalog entry, the earlier one with the
lower confidence score. -/
def resLow : OcrResult := ⟨entryNapa, 1/2, "a".data, .brand_name⟩

def resHigh : OcrResult := ⟨entryNapa, 9/10, "b".data, .fuzzy⟩

section ConcreteEvaluation

/- Batteries marks the `Rat` arithmetic operations `@[irreducible]`; the
proofs below evaluate concrete rational scores, so reducibility is restored
locally for this section. -/
attribute [local semireducible] Rat.mul Rat.inv Rat.add Rat.sub

-- Sanity checks of the primitives on concrete inputs.
example : collapseWs "A  B\n\tC".data = "A B C".data := by decide
example : clean_extracted_text "A  B\n\tC".data = "A B C".data := by decide
example : clean_extracted_text "".data = "".data := by decide
example : clean_extracted_text "_".data = "_".data := by decide
example : pyLower "NaPa".data = "napa".data := by decide
example : listContains "beximco pharma x".data "pharma".data = true := by decide
example : listContains "abc".data "abd".data = false := by decide
example : pySplitLines "A\nB".data = ["A".data, "B".data] := by decide
example : pySplitLines (clean_extracted_text "A\nB".data) = ["A B".data] := by decide
example : pyIsUpper "NAPA 500".data = true := by decide
example : pyIsUpper "Napa".data = false := by decide
example : pyStrip "  ab c  ".data = "ab c".data := by decide
example : findBarcode "NAPA 500MG TABLET BEXIMCO PHARMA 8901234567".data
    = some "8901234567".data := by decide
example : findBarcode "1234567".data = none := by decide
example : findBarcode "12345678901234".data = none := by decide
example : findBarcode "AB12345678".data = none := by decide
example : findBarcode "x 12345678 y".data = some "12345678".data := by decide
example : findStrength "500mg".data = some "500mg".data := by decide
example : findStrength "500 MG".data = some "500 MG".data := by decide
example : findStrength "2.5 ml of stuff".data = some "2.5 ml".data := by decide
example : findStrength "500 mgx".data = none := by decide
example : findStrength "abc".data = none := by decide
example : (extract_medicine_info "NAPA 500MG TABLET BEXIMCO PHARMA 8901234567".data)
    = { brand_name := [], generic_name := [],
        strength := "500MG".data,
        manufacturer := "NAPA 500MG TABLET BEXIMCO PHARMA 8901234567".data,
        barcode := "8901234567".data, confidence_score := 0 } := by decide
example : (extract_medicine_info "PANADOL\n12345678".data).brand_name
    = "PANADOL".data := by decide
example : (extract_medicine_info "PANADOL\n12345678".data).barcode
    = "12345678".data := by decide
example : search_medicines_by_ocr_text catNapa ratioZero prZero scanTextNapa 10
    = [⟨entryNapa, 19/20, "8901234567".data, .barcode⟩] := by decide
example : search_medicines_by_ocr_text catTwoBrands ratioZero prZero "NAPA".data 10
    = [⟨entryNapax, 9/10, "NAPAX".data, .brand_name⟩,
       ⟨entryNapay, 9/10, "NAPAY".data, .brand_name⟩] := by decide
example : search_medicines_by_ocr_text catBarcodeRaises ratioZero prZero
    "PANADOL\n12345678".data 10 = [] := by decide
example : calculate_name_confidence ratioZero "Panadol".data "Panadol".data = 1 := by decide
example : calculate_name_confidence ratioZero "Pana".data "Panadol".data = 9/10 := by decide
example : calculate_name_confidence ratioZero [] "Panadol".data = 0 := by decide

/-! ## Shared lemmas -/

theorem listIsPrefix_iff (a b : PyStr) : listIsPrefix a b = true ↔ a <+: b := by
  induction a generalizing b with
  | nil => simp [listIsPrefix]
  | cons x xs ih =>
    cases b with
    | nil => simp [listIsPrefix]
    | cons y ys => simp [listIsPrefix, ih, List.cons_prefix_cons]

theorem listContains_iff (hay needle : PyStr) :
    listContains hay needle = true ↔ needle <:+: hay := by
  induction hay with
  | nil =>
    cases needle <;> simp [listContains, listIsPrefix]
  | cons x xs ih =>
    simp [listContains, listIsPrefix_iff, ih, List.infix_cons_iff]

theorem pyLower_eq_nil {a : PyStr} : pyLower a = [] ↔ a = [] := by
  simp [pyLower]

theorem removeDuplicateAux_find (seen : List ℕ) (l : List OcrResult) :
    ∀ r' ∈ removeDuplicateAux seen l,
      r'.medicine.id ∉ seen ∧
      l.find? (fun x => x.medicine.id == r'.medicine.id) = some r' := by
  induction l generalizing seen with
  | nil => intro r' hr'; simp [removeDuplicateAux] at hr'
  | cons r rest ih =>
    intro r' hr'
    simp only [removeDuplicateAux] at hr'
    split at hr'
    · rename_i hin
      obtain ⟨hnot, hfind⟩ := ih seen r' hr'
      have hne : (r.medicine.id == r'.medicine.id) = false := by
        rw [beq_eq_false_iff_ne]
        intro h; exact hnot (h ▸ hin)
      refine ⟨hnot, ?_⟩
      simp only [List.find?, hne]
      exact hfind
    · rename_i hin
      rcases List.mem_cons.mp hr' with rfl | hmem
      · exact ⟨hin, by simp only [List.find?, beq_self_eq_true]⟩
      · obtain ⟨hnot, hfind⟩ := ih (r.medicine.id :: seen) r' hmem
        have hne2 : (r.medicine.id == r'.medicine.id) = false := by
          rw [beq_eq_false_iff_ne]
          intro h; exact hnot (List.mem_cons.mpr (Or.inl h.symm))
        refine ⟨fun hs => hnot (List.mem_cons_of_mem _ hs), ?_⟩
        simp only [List.find?, hne2]
        exact hfind

theorem removeDuplicateAux_represented (seen : List ℕ) (l : List OcrResult) :
    ∀ r ∈ l, r.medicine.id ∉ seen →
      ∃ r' ∈ removeDuplicateAux seen l, r'.medicine.id = r.medicine.id := by
  induction l generalizing seen with
  | nil => simp
  | cons x rest ih =>
    intro r hr hnot
    simp only [removeDuplicateAux]
    split
    · rename_i hin
      rcases List.mem_cons.mp hr with rfl | hmem
      · exact absurd hin hnot
      · exact ih seen r hmem hnot
    · rename_i hin
      by_cases hid : r.medicine.id = x.medicine.id
      · exact ⟨x, List.mem_cons_self _ _, hid.symm⟩
      · rcases List.mem_cons.mp hr with rfl | hmem
        · exact absurd rfl hid
        · obtain ⟨r', hr', he⟩ := ih (x.medicine.id :: seen) r hmem (by
            intro hs
            rcases List.mem_cons.mp hs with h | h
            exacts [hid h, hnot h])
          exact ⟨r', List.mem_cons_of_mem _ hr', he⟩

theorem removeDuplicateAux_ids_nodup (seen : List ℕ) (l : List OcrResult) :
    ((removeDuplicateAux seen l).map (fun r => r.medicine.id)).Nodup := by
  induction l generalizing seen with
  | nil => simp [removeDuplicateAux]
  | cons x rest ih =>
    simp only [removeDuplicateAux]
    split
    · exact ih seen
    · simp only [List.map_cons, List.nodup_cons]
      refine ⟨?_, ih _⟩
      intro hmem
      rcases List.mem_map.mp hmem with ⟨r', hr', he⟩
      have hni := (removeDuplicateAux_find _ _ r' hr').1
      exact (he ▸ hni) (List.mem_cons_self _ _)

theorem removeDuplicateAux_all_seen (seen : List ℕ) :
    ∀ l : List OcrResult, (∀ r ∈ l, r.medicine.id ∈ seen) →
      removeDuplicateAux seen l = []
  | [], _ => rfl
  | x :: rest, h => by
    simp only [removeDuplicateAux, if_pos (h x (List.mem_cons_self _ _))]
    exact removeDuplicateAux_all_seen seen rest
      (fun r hr => h r (List.mem_cons_of_mem _ hr))

theorem insertDesc_perm (r : OcrResult) (l : List OcrResult) :
    List.Perm (insertDesc r l) (r :: l) := by
  induction l with
  | nil => rfl
  | cons x xs ih =>
    simp only [insertDesc]
    split
    · rfl
    · exact (ih.cons x).trans (List.Perm.swap r x xs)

theorem sortByConfidenceDesc_perm (l : List OcrResult) :
    List.Perm (sortByConfidenceDesc l) l := by
  induction l with
  | nil => rfl
  | cons x xs ih =>
    exact (insertDesc_perm x (sortByConfidenceDesc xs)).trans (ih.cons x)

theorem insertDesc_sorted (r : OcrResult) (l : List OcrResult)
    (h : l.Pairwise fun a b => b.confidence_score ≤ a.confidence_score) :
    (insertDesc r l).Pairwise fun a b => b.confidence_score ≤ a.confidence_score := by
  induction l with
  | nil => simp [insertDesc]
  | cons x xs ih =>
    simp only [insertDesc]
    split
    · rename_i hge
      refine List.Pairwise.cons ?_ h
      intro y hy
      rcases List.mem_cons.mp hy with rfl | hmem
      · exact hge
      · exact le_trans (List.rel_of_pairwise_cons h hmem) hge
    · rename_i hlt
      refine List.Pairwise.cons ?_ (ih (List.Pairwise.of_cons h))
      intro y hy
      have hy' : y ∈ r :: xs := (insertDesc_perm r xs).mem_iff.mp hy
      rcases List.mem_cons.mp hy' with rfl | hmem
      · exact le_of_not_le hlt
      · exact List.rel_of_pairwise_cons h hmem

theorem sortByConfidenceDesc_sorted (l : List OcrResult) :
    (sortByConfidenceDesc l).Pairwise
      fun a b => b.confidence_score ≤ a.confidence_score := by
  induction l with
  | nil => simp [sortByConfidenceDesc]
  | cons x xs ih => exact insertDesc_sorted x _ ih

/-- The whole search either returns `[]` (the `except` branch) or the
sorted, deduplicated, truncated concatenation of the strategies'
candidate lists. -/
theorem search_medicines_by_ocr_text_cases (cat : Catalog)
    (ratio : PyStr → PyStr → Except Unit ℕ) (pr : PyStr → PyStr → ℕ)
    (text : PyStr) (limit : ℕ) :
    search_medicines_by_ocr_text cat ratio pr text limit = [] ∨
    ∃ results : List OcrResult,
      search_medicines_by_ocr_text cat ratio pr text limit
        = (sortByConfidenceDesc (remove_duplicate_results results)).take limit := by
  simp only [search_medicines_by_ocr_text, search_body]
  cases barcode_part cat (extract_medicine_info text) with
  | error e => exact Or.inl rfl
  | ok r1 =>
    cases brand_part cat ratio (extract_medicine_info text) limit with
    | error e => exact Or.inl rfl
    | ok r2 =>
      cases generic_part cat ratio (extract_medicine_info text) limit with
      | error e => exact Or.inl rfl
      | ok r3 =>
        cases manufacturer_part cat ratio (extract_medicine_info text) limit with
        | error e => exact Or.inl rfl
        | ok r4 =>
          cases fuzzy_part cat pr text with
          | error e => exact Or.inl rfl
          | ok r5 => exact Or.inr ⟨r1 ++ r2 ++ r3 ++ r4 ++ r5, rfl⟩

/-! ## C5: name-confidence special cases -/

/-- C5: `calculate_name_confidence` is case-insensitive (its value is
determined by the lowercased arguments), returns 1.0 on a case-insensitive
exact match of nonempty strings, 0.9 on substring containment in either
direction when the lowercased forms differ, and 0.0 when either input is
empty; in all of these cases the result does not depend on the
edit-distance function `ratio` (the theorem holds for every `ratio`), and
the spec's three examples evaluate as stated. -/
theorem calculate_name_confidence_cases (ratio : PyStr → PyStr → Except Unit ℕ)
    (a b : PyStr) :
    (∀ a' b', pyLower a' = pyLower a → pyLower b' = pyLower b →
      calculate_name_confidence ratio a' b' = calculate_name_confidence ratio a b) ∧
    ((a = [] ∨ b = []) → calculate_name_confidence ratio a b = 0) ∧
    (a ≠ [] → b ≠ [] → pyLower a = pyLower b →
      calculate_name_confidence ratio a b = 1) ∧
    (a ≠ [] → b ≠ [] → pyLower a ≠ pyLower b →
      (pyLower a <:+: pyLower b ∨ pyLower b <:+: pyLower a) →
      calculate_name_confidence ratio a b = 9/10) ∧
    calculate_name_confidence ratio "Panadol".data "Panadol".data = 1 ∧
    calculate_name_confidence ratio "Pana".data "Panadol".data = 9/10 ∧
    calculate_name_confidence ratio [] "Panadol".data = 0 := by
  refine ⟨?_, ?_, ?_, ?_, ?_, ?_, ?_⟩
  · intro a' b' ha hb
    have ea : a' = [] ↔ a = [] := by
      rw [← pyLower_eq_nil (a := a'), ← pyLower_eq_nil (a := a), ha]
    have eb : b' = [] ↔ b = [] := by
      rw [← pyLower_eq_nil (a := b'), ← pyLower_eq_nil (a := b), hb]
    unfold calculate_name_confidence
    rw [ha, hb]
    exact if_congr (or_congr ea eb) rfl rfl
  · intro h
    unfold calculate_name_confidence
    rw [if_pos h]
  · intro ha hb he
    unfold calculate_name_confidence
    rw [if_neg (not_or.mpr ⟨ha, hb⟩), if_pos he]
  · intro ha hb hne hin
    unfold calculate_name_confidence
    rw [if_neg (not_or.mpr ⟨ha, hb⟩), if_neg hne, if_pos ?_]
    rcases hin with h | h
    · exact Bool.or_eq_true _ _ ▸ Or.inl ((listContains_iff _ _).mpr h)
    · exact Bool.or_eq_true _ _ ▸ Or.inr ((listContains_iff _ _).mpr h)
  · unfold calculate_name_confidence
    rw [if_neg (by decide), if_pos (by decide)]
  · unfold calculate_name_confidence
    rw [if_neg (by decide), if_neg (by decide), if_pos (by decide)]
  · unfold calculate_name_confidence
    rw [if_pos (Or.inl rfl)]

/-- Witness for C5 at a concrete input: "PANA" is (case-insensitively) a
substring of "Panadol", so the confidence is 0.9 for any `ratio`. -/
theorem calculate_name_confidence_cases_witness :
    calculate_name_confidence ratioRaise "PANA".data "Panadol".data = 9/10 :=
  (calculate_name_confidence_cases ratioRaise "PANA".data "Panadol".data).2.2.2.1
    (by decide) (by decide) (by decide) (Or.inl (by decide))

/-! ## C10: minimum line length for name hints -/

theorem extract_potential_names_invariant (lines : List PyStr) (names : NamePair)
    (hb : names.brand_name ≠ [] → 3 ≤ names.brand_name.length)
    (hg : names.generic_name ≠ [] → 3 ≤ names.generic_name.length) :
    ((extract_potential_names names lines).brand_name ≠ [] →
      3 ≤ (extract_potential_names names lines).brand_name.length) ∧
    ((extract_potential_names names lines).generic_name ≠ [] →
      3 ≤ (extract_potential_names names lines).generic_name.length) := by
  induction lines generalizing names with
  | nil => exact ⟨hb, hg⟩
  | cons line rest ih =>
    simp only [extract_potential_names]
    split
    · exact ih names hb hg
    · split
      · exact ih names hb hg
      · rename_i hlen _
        have h3 : 3 ≤ (pyStrip line).length := by
          rcases Bool.or_eq_false_iff.mp (Bool.not_eq_true _ ▸ hlen) with ⟨_, h2⟩
          have := of_decide_eq_false h2
          omega
        split
        · split
          · exact ih _ (fun _ => h3) hg
          · exact ih names hb hg
        · split
          · split
            · exact ih _ hb (fun _ => h3)
            · exact ih names hb hg
          · exact ih names hb hg

/-- C10: a stripped line shorter than 3 characters is never selected as a
name hint — whenever `extract_potential_names` produces a nonempty brand
or generic hint, that hint has length at least 3. -/
theorem name_hints_min_length (lines : List PyStr) :
    ((extract_potential_names ⟨[], []⟩ lines).brand_name ≠ [] →
      3 ≤ (extract_potential_names ⟨[], []⟩ lines).brand_name.length) ∧
    ((extract_potential_names ⟨[], []⟩ lines).generic_name ≠ [] →
      3 ≤ (extract_potential_names ⟨[], []⟩ lines).generic_name.length) :=
  extract_potential_names_invariant lines ⟨[], []⟩
    (fun h => absurd rfl h) (fun h => absurd rfl h)

/-- Witness for C10 on a concrete line list producing both hints. -/
theorem name_hints_min_length_witness :
    3 ≤ (extract_potential_names ⟨[], []⟩
        ["PANADOL".data, "Paracetamol BP".data]).brand_name.length ∧
    3 ≤ (extract_potential_names ⟨[], []⟩
        ["PANADOL".data, "Paracetamol BP".data]).generic_name.length :=
  ⟨(name_hints_min_length ["PANADOL".data, "Paracetamol BP".data]).1 (by decide),
   (name_hints_min_length ["PANADOL".data, "Paracetamol BP".data]).2 (by decide)⟩

/-! ## C8: manufacturer strategy -/

/-- C8: a catalog entry considered by the manufacturer strategy is emitted
iff its name-confidence against the hint exceeds 0.8; every emitted
candidate carries confidence `score * 0.8` and the manufacturer tag; and
when the hint is nonempty and the catalog call succeeds, the strategy's
output is exactly this filter over the returned entries. -/
theorem manufacturer_strategy_iff (ratio : PyStr → PyStr → Except Unit ℕ)
    (hint : PyStr) (medicines : List Medicine) (m : Medicine) (hm : m ∈ medicines) :
    ((∃ r ∈ manufacturer_matches ratio hint medicines, r.medicine = m) ↔
      calculate_name_confidence ratio hint m.manufacturer > 4/5) ∧
    (∀ r ∈ manufacturer_matches ratio hint medicines,
      r.confidence_score = calculate_name_confidence ratio hint r.medicine.manufacturer * (4/5) ∧
      r.match_type = MatchType.manufacturer) ∧
    (∀ (cat : Catalog) (info : MedicineInfo) (limit : ℕ) (meds : List Medicine),
      info.manufacturer = hint → hint ≠ [] →
      cat.search_medicines hint limit = .ok meds →
      manufacturer_part cat ratio info limit = .ok (manufacturer_matches ratio hint meds)) := by
  refine ⟨⟨?_, ?_⟩, ?_, ?_⟩
  · rintro ⟨r, hr, hrm⟩
    rcases List.mem_filterMap.mp hr with ⟨m', hm', heq⟩
    simp only at heq
    split at heq
    · cases heq
      rename_i hc
      cases hrm
      exact hc
    · cases heq
  · intro hc
    refine ⟨⟨m, calculate_name_confidence ratio hint m.manufacturer * (4/5),
        m.manufacturer, .manufacturer⟩, List.mem_filterMap.mpr ⟨m, hm, ?_⟩, rfl⟩
    simp only [if_pos hc]
  · intro r hr
    rcases List.mem_filterMap.mp hr with ⟨m', hm', heq⟩
    simp only at heq
    split at heq
    · cases heq
      exact ⟨rfl, rfl⟩
    · cases heq
  · intro cat info limit meds hinfo hne hcat
    unfold manufacturer_part
    rw [hinfo, if_pos hne, hcat]

/-- Witness for C8: the entry whose manufacturer equals the hint is
emitted. -/
theorem manufacturer_strategy_iff_witness :
    ∃ r ∈ manufacturer_matches ratioZero "Beximco Pharma".data [entryNapa],
      r.medicine = entryNapa :=
  ((manufacturer_strategy_iff ratioZero "Beximco Pharma".data [entryNapa]
      entryNapa (by decide)).1).mpr (by decide)

/-! ## C6: deduplication keeps the first-seen candidate per id -/

/-- C6: `remove_duplicate_results` keeps, for each emitted result, exactly
the first candidate of the input carrying its catalog id (regardless of
scores), every input id stays represented, the deduplicated ids are
pairwise distinct, and the final ranked list of the whole search contains
at most one entry per catalog id. -/
theorem dedup_first_seen_unique :
    (∀ results : List OcrResult, ∀ r' ∈ remove_duplicate_results results,
      results.find? (fun x => x.medicine.id == r'.medicine.id) = some r') ∧
    (∀ results : List OcrResult, ∀ r ∈ results,
      ∃ r' ∈ remove_duplicate_results results, r'.medicine.id = r.medicine.id) ∧
    (∀ results : List OcrResult,
      ((remove_duplicate_results results).map (fun r => r.medicine.id)).Nodup) ∧
    (∀ (cat : Catalog) (ratio : PyStr → PyStr → Except Unit ℕ)
      (pr : PyStr → PyStr → ℕ) (text : PyStr) (limit : ℕ),
      ((search_medicines_by_ocr_text cat ratio pr text limit).map
        (fun r => r.medicine.id)).Nodup) := by
  refine ⟨?_, ?_, ?_, ?_⟩
  · intro results r' hr'
    exact (removeDuplicateAux_find [] results r' hr').2
  · intro results r hr
    exact removeDuplicateAux_represented [] results r hr (by simp)
  · intro results
    exact removeDuplicateAux_ids_nodup [] results
  · intro cat ratio pr text limit
    rcases search_medicines_by_ocr_text_cases cat ratio pr text limit with h | ⟨results, h⟩
    · rw [h]; simp
    · rw [h]
      have nd : ((remove_duplicate_results results).map
          (fun r => r.medicine.id)).Nodup := removeDuplicateAux_ids_nodup [] results
      have pm := (sortByConfidenceDesc_perm (remove_duplicate_results results)).map
        (fun r => r.medicine.id)
      have nd2 := pm.nodup_iff.mpr nd
      rw [List.map_take]
      exact List.Nodup.sublist (List.take_sublist _ _) nd2

/-- Witness for C6: with two candidates for the same entry, the
lower-scored first-seen one is the one the deduplicated list keeps. -/
theorem dedup_first_seen_unique_witness :
    [resLow, resHigh].find? (fun x => x.medicine.id == resLow.medicine.id)
      = some resLow :=
  dedup_first_seen_unique.1 [resLow, resHigh] resLow (by decide)

/-! ## C1: ranking order -/

/-- C1 counterexample: at a concrete catalog and scan text the ranked
output holds two results with equal confidence scores and equal strategy
tags whose catalog ids appear in descending order (2 before 1), so the
claimed catalog_entry_id ascending tie-break does not hold. -/
theorem ranking_order_counterexample :
    ((search_medicines_by_ocr_text catTwoBrands ratioZero prZero "NAPA".data 10).map
      (fun r => r.medicine.id) = [2, 1]) ∧
    ((search_medicines_by_ocr_text catTwoBrands ratioZero prZero "NAPA".data 10).map
      (fun r => r.confidence_score) = [9/10, 9/10]) ∧
    ((search_medicines_by_ocr_text catTwoBrands ratioZero prZero "NAPA".data 10).map
      (fun r => r.match_type) = [.brand_name, .brand_name]) := by
  decide

/-- C1 (amended): for every catalog, scorer and input, the ranked output
is sorted by confidence score in non-increasing order; equal-score results
keep their first-seen (stable) order — strategy execution order, then the
catalog's return order — rather than being ordered by catalog id. -/
theorem search_results_sorted_desc (cat : Catalog)
    (ratio : PyStr → PyStr → Except Unit ℕ) (pr : PyStr → PyStr → ℕ)
    (text : PyStr) (limit : ℕ) :
    (search_medicines_by_ocr_text cat ratio pr text limit).Pairwise
      (fun a b => b.confidence_score ≤ a.confidence_score) := by
  rcases search_medicines_by_ocr_text_cases cat ratio pr text limit with h | ⟨results, h⟩
  · rw [h]; exact List.Pairwise.nil
  · rw [h]
    exact List.Pairwise.sublist (List.take_sublist _ _) (sortByConfidenceDesc_sorted _)

/-! ## C7: barcode strategy and the end-to-end scenario -/

/-- C7: whenever the extracted fields hold a barcode and the catalog's
exact lookup returns an entry, the barcode strategy emits exactly one
candidate for it with confidence 0.95 and the barcode tag; and in the
end-to-end scenario over the one-entry catalog, for every partial-ratio
function, the 0.95 barcode match on entry 1 is the whole output and hence
ranks first. -/
theorem barcode_strategy_and_scenario :
    (∀ (cat : Catalog) (info : MedicineInfo) (m : Medicine),
      info.barcode ≠ [] → cat.get_medicine_by_barcode info.barcode = .ok (some m) →
      barcode_part cat info = .ok [⟨m, 19/20, info.barcode, .barcode⟩]) ∧
    (∀ pr : PyStr → PyStr → ℕ,
      search_medicines_by_ocr_text catNapa ratioZero pr scanTextNapa 10
        = [⟨entryNapa, 19/20, "8901234567".data, .barcode⟩]) := by
  constructor
  · intro cat info m hne hcat
    unfold barcode_part
    rw [if_pos hne, hcat]
  · intro pr
    have hfz : ∀ r ∈ fuzzy_matches pr scanTextNapa [entryNapa],
        r.medicine.id ∈ ([1] : List ℕ) := by
      intro r hr
      rcases List.mem_filterMap.mp hr with ⟨m, hm, heq⟩
      rcases List.mem_singleton.mp hm with rfl
      simp only at heq
      split at heq
      · cases heq; exact List.mem_singleton_self 1
      · cases heq
    have step1 : search_medicines_by_ocr_text catNapa ratioZero pr scanTextNapa 10
        = (sortByConfidenceDesc
            ((⟨entryNapa, 19/20, "8901234567".data, .barcode⟩ : OcrResult) ::
              removeDuplicateAux [1]
                (fuzzy_matches pr scanTextNapa [entryNapa]))).take 10 := rfl
    rw [step1, removeDuplicateAux_all_seen [1] _ hfz]
    rfl

/-- Witness for C7 part one at the concrete scenario catalog. -/
theorem barcode_strategy_and_scenario_witness :
    barcode_part catNapa (extract_medicine_info scanTextNapa)
      = .ok [⟨entryNapa, 19/20, (extract_medicine_info scanTextNapa).barcode,
          .barcode⟩] :=
  barcode_strategy_and_scenario.1 catNapa (extract_medicine_info scanTextNapa)
    entryNapa (by decide) (by rfl)

/-! ## C2: failure isolation between strategies -/

theorem calculate_name_confidence_raise (a b : PyStr) :
    calculate_name_confidence ratioRaise a b
      = calculate_name_confidence ratioZero a b := by
  simp only [calculate_name_confidence, ratioRaise, ratioZero]
  split_ifs <;> norm_num

/-- C2 counterexample: with a catalog whose barcode lookup raises, the
whole search returns the empty list even though the brand strategy alone
would still have produced a candidate for "PANADOL" — the other
strategies' contributions do not survive a single strategy's failure. -/
theorem strategy_isolation_counterexample :
    search_medicines_by_ocr_text catBarcodeRaises ratioZero prZero
      "PANADOL\n12345678".data 10 = [] ∧
    brand_part catBarcodeRaises ratioZero
      (extract_medicine_info "PANADOL\n12345678".data) 10
      = .ok [⟨entryPanadol, 1, "Panadol".data, .brand_name⟩] := by
  exact ⟨by decide, by rfl⟩

/-- C2 (amended): a raising catalog call in the barcode strategy aborts
the whole search — the surrounding `except` clause returns the empty list
and every strategy's contribution is lost; only a raising per-candidate
`fuzz.ratio` call inside `calculate_name_confidence` is contained: the
name strategies then score that candidate as if the ratio were 0, drop it
at the threshold, and continue with the remaining entries. -/
theorem strategy_failure_behaviour :
    (∀ (cat : Catalog) (ratio : PyStr → PyStr → Except Unit ℕ)
      (pr : PyStr → PyStr → ℕ) (text : PyStr) (limit : ℕ),
      (extract_medicine_info text).barcode ≠ [] →
      cat.get_medicine_by_barcode (extract_medicine_info text).barcode = .error () →
      search_medicines_by_ocr_text cat ratio pr text limit = []) ∧
    (∀ (hint : PyStr) (field : Medicine → PyStr) (tag : MatchType)
      (medicines : List Medicine),
      name_matches ratioRaise hint field tag medicines
        = name_matches ratioZero hint field tag medicines) := by
  constructor
  · intro cat ratio pr text limit hne herr
    have hb : barcode_part cat (extract_medicine_info text) = .error () := by
      unfold barcode_part
      rw [if_pos hne, herr]
    simp only [search_medicines_by_ocr_text, search_body, hb]
  · intro hint field tag medicines
    simp only [name_matches, calculate_name_confidence_raise]

/-- Witness for C2 (amended) at the raising catalog fixture. -/
theorem strategy_failure_behaviour_witness :
    search_medicines_by_ocr_text catBarcodeRaises ratioRaise prZero
      "PANADOL\n12345678".data 10 = [] :=
  strategy_failure_behaviour.1 catBarcodeRaises ratioRaise prZero
    "PANADOL\n12345678".data 10 (by decide) (by rfl)

/-! ## C3: line boundaries through normalization -/

theorem mem_collapseWsAux (b : Bool) (l : PyStr) :
    ∀ c ∈ collapseWsAux b l, c = ' ' ∨ (c ∈ l ∧ pyIsSpace c = false) := by
  induction l generalizing b with
  | nil => intro c hc; simp [collapseWsAux] at hc
  | cons x xs ih =>
    intro c hc
    simp only [collapseWsAux] at hc
    split at hc
    · split at hc
      · rcases ih true c hc with h | ⟨hm, hs⟩
        exacts [Or.inl h, Or.inr ⟨List.mem_cons_of_mem _ hm, hs⟩]
      · rcases List.mem_cons.mp hc with rfl | hm
        · exact Or.inl rfl
        · rcases ih true c hm with h | ⟨hm2, hs⟩
          exacts [Or.inl h, Or.inr ⟨List.mem_cons_of_mem _ hm2, hs⟩]
    · rename_i hx
      rcases List.mem_cons.mp hc with rfl | hm
      · exact Or.inr ⟨List.mem_cons_self _ _, Bool.eq_false_iff.mpr hx⟩
      · rcases ih false c hm with h | ⟨hm2, hs⟩
        exacts [Or.inl h, Or.inr ⟨List.mem_cons_of_mem _ hm2, hs⟩]

theorem mem_pyStrip (l : PyStr) : ∀ c ∈ pyStrip l, c ∈ l := by
  intro c hc
  unfold pyStrip at hc
  rw [List.mem_reverse] at hc
  have h1 : c ∈ (l.dropWhile pyIsSpace).reverse :=
    (List.dropWhile_suffix pyIsSpace).sublist.subset hc
  rw [List.mem_reverse] at h1
  exact (List.dropWhile_suffix pyIsSpace).sublist.subset h1

theorem mem_clean_extracted_text (t : PyStr) :
    ∀ c ∈ clean_extracted_text t,
      c = ' ' ∨ (keptChar c = true ∧ pyIsSpace c = false) := by
  intro c hc
  simp only [clean_extracted_text] at hc
  have h1 := mem_pyStrip _ c hc
  rcases mem_collapseWsAux false _ c h1 with h | ⟨hm, hs⟩
  · exact Or.inl h
  · exact Or.inr ⟨(List.mem_filter.mp hm).2, hs⟩

theorem newline_not_mem_clean (t : PyStr) : '\n' ∉ clean_extracted_text t := by
  intro h
  rcases mem_clean_extracted_text t '\n' h with h1 | ⟨-, h2⟩
  · exact absurd h1 (by decide)
  · exact absurd h2 (by decide)

theorem pySplitOnChar_eq_self (sep : Char) (l : PyStr) (h : sep ∉ l) :
    pySplitOnChar sep l = [l] := by
  induction l with
  | nil => rfl
  | cons c cs ih =>
    have hcs : sep ∉ cs := fun hm => h (List.mem_cons_of_mem _ hm)
    have hc : c ≠ sep := fun he => h (he ▸ List.mem_cons_self _ _)
    simp only [pySplitOnChar, ih hcs]
    rw [if_neg hc]

/-- C3 counterexample: normalization collapses the recognizer's line break
into a space — a two-line input becomes a single line, so the line
boundaries are not preserved through normalization. -/
theorem line_preservation_counterexample :
    clean_extracted_text "A\nB".data = "A B".data ∧
    pySplitLines (clean_extracted_text "A\nB".data) = ["A B".data] ∧
    pySplitLines (clean_extracted_text "A\nB".data) ≠ pySplitLines "A\nB".data := by
  decide

/-- C3 (amended): the normalizer flattens line breaks into spaces, so the
split on `'\n'` performed by `extract_medicine_info` on normalized text
always yields exactly one line — the whole flattened text — and every
field heuristic runs over that single line. -/
theorem extract_sees_single_line (text : PyStr) :
    pySplitLines (clean_extracted_text text) = [clean_extracted_text text] :=
  pySplitOnChar_eq_self '\n' _ (newline_not_mem_clean text)

/-! ## C4: decode failures are swallowed, not surfaced -/

/-- C4 (code bug): on an undecodable byte buffer the body of
`process_image_file` raises (`ValueError("Could not decode image")`), but
the method's own catch-all turns that into the degraded normal return
`("", {})`: the caller receives a successful empty result, never a hard
failure; `process_base64_image` behaves identically. -/
theorem process_decode_failure_swallowed :
    process_image_file_body (fun _ : List ℕ => (none : Option Unit)) id
      (fun _ => []) [] = .error () ∧
    process_image_file (fun _ : List ℕ => (none : Option Unit)) id
      (fun _ => []) [] = ([], none) ∧
    process_base64_image (fun _ => .ok []) (fun _ : List ℕ => (none : Option Unit))
      id (fun _ => []) [] = ([], none) :=
  ⟨rfl, rfl, rfl⟩

/-! ## C9: shape of the normalizer's output -/

theorem collapseWsAux_head_true (cs : PyStr) :
    ∀ c ∈ (collapseWsAux true cs).head?, pyIsSpace c = false := by
  induction cs with
  | nil => simp [collapseWsAux]
  | cons x xs ih =>
    simp only [collapseWsAux]
    split
    · exact ih
    · rename_i hx
      intro c hc
      rw [List.head?_cons, Option.mem_def, Option.some.injEq] at hc
      exact hc ▸ Bool.eq_false_iff.mpr hx

theorem collapseWsAux_chain (b : Bool) (l : PyStr) :
    (collapseWsAux b l).Chain' (fun a c => ¬(a = ' ' ∧ c = ' ')) := by
  induction l generalizing b with
  | nil => simp [collapseWsAux]
  | cons x xs ih =>
    simp only [collapseWsAux]
    split
    · split
      · exact ih true
      · rw [List.chain'_cons']
        refine ⟨?_, ih true⟩
        intro y hy
        have hns := collapseWsAux_head_true xs y hy
        rintro ⟨-, rfl⟩
        exact absurd hns (by decide)
    · rename_i hx
      rw [List.chain'_cons']
      refine ⟨?_, ih false⟩
      intro y hy
      rintro ⟨rfl, -⟩
      exact hx (by decide)

theorem pyStrip_infix_self (l : PyStr) : pyStrip l <:+: l := by
  unfold pyStrip
  have h1 : l.dropWhile pyIsSpace <:+ l := List.dropWhile_suffix _
  have h2 : (l.dropWhile pyIsSpace).reverse.dropWhile pyIsSpace <:+
      (l.dropWhile pyIsSpace).reverse := List.dropWhile_suffix _
  have h3 : ((l.dropWhile pyIsSpace).reverse.dropWhile pyIsSpace).reverse <+:
      l.dropWhile pyIsSpace := by
    nth_rewrite 2 [← List.reverse_reverse (l.dropWhile pyIsSpace)]
    exact List.reverse_prefix.mpr h2
  exact h3.isInfix.trans h1.isInfix

theorem pyStrip_head (l : PyStr) :
    ∀ c, (pyStrip l).head? = some c → pyIsSpace c = false := by
  intro c hc
  unfold pyStrip at hc
  rw [List.head?_reverse] at hc
  obtain ⟨s, hs⟩ := List.dropWhile_suffix (l := (l.dropWhile pyIsSpace).reverse) pyIsSpace
  have hlast : (l.dropWhile pyIsSpace).reverse.getLast? = some c := by
    rw [← hs, List.getLast?_append, hc, Option.or_some]
  rw [List.getLast?_reverse] at hlast
  have hmatch := List.head?_dropWhile_not pyIsSpace l
  rw [hlast] at hmatch
  exact hmatch

theorem pyStrip_getLast (l : PyStr) :
    ∀ c, (pyStrip l).getLast? = some c → pyIsSpace c = false := by
  intro c hc
  unfold pyStrip at hc
  rw [List.getLast?_reverse] at hc
  have hmatch := List.head?_dropWhile_not pyIsSpace (l.dropWhile pyIsSpace).reverse
  rw [hc] at hmatch
  exact hmatch

/-- C9 counterexample: the normalizer keeps the underscore (Python `\w`
includes it), which is outside the spec's stated allow-list of letters,
digits, spaces and the fixed punctuation set. -/
theorem normalizer_allowlist_counterexample :
    clean_extracted_text "_".data = "_".data ∧ specAllowedChar '_' = false := by
  decide

set_option maxHeartbeats 1000000 in
/-- C9 (amended): every character of the normalizer's output is in the
spec's allow-list extended with the underscore; the only whitespace left
is single spaces (no two adjacent spaces, none leading or trailing); and
the two spec examples evaluate as stated. -/
theorem clean_extracted_text_shape (t : PyStr) :
    (∀ c ∈ clean_extracted_text t, (specAllowedChar c || c = '_') = true) ∧
    (clean_extracted_text t).Chain' (fun a c => ¬(a = ' ' ∧ c = ' ')) ∧
    (∀ c, (clean_extracted_text t).head? = some c → pyIsSpace c = false) ∧
    (∀ c, (clean_extracted_text t).getLast? = some c → pyIsSpace c = false) ∧
    clean_extracted_text "A  B\n\tC".data = "A B C".data ∧
    clean_extracted_text [] = [] := by
  refine ⟨?_, ?_, ?_, ?_, by decide, rfl⟩
  · intro c hc
    rcases mem_clean_extracted_text t c hc with rfl | ⟨hk, hs⟩
    · decide
    · simp only [keptChar, pyIsWordChar, Char.isAlphanum, pyIsSpace, Bool.or_eq_true,
        decide_eq_true_eq] at hk
      simp only [specAllowedChar, Bool.or_eq_true, decide_eq_true_eq]
      simp only [pyIsSpace, Bool.or_eq_false_iff, decide_eq_false_iff_not] at hs
      tauto
  · have hch := collapseWsAux_chain false ((collapseWs (pyStrip t)).filter keptChar)
    exact hch.infix (pyStrip_infix_self _)
  · exact pyStrip_head _
  · exact pyStrip_getLast _

/-- Witness for C9 (amended) on the spec's whitespace-collapse example. -/
theorem clean_extracted_text_shape_witness :
    (specAllowedChar 'A' || 'A' = '_') = true :=
  (clean_extracted_text_shape "A  B\n\tC".data).1 'A' (by decide)

end ConcreteEvaluation
